import Mathlib


/-!
Verification development for the discord-mcp-bot message pipeline
(src/index.ts). The embedding models strings as lists of characters and
timestamps in milliseconds as naturals. Covered: the userCooldowns map
and its periodic sweep, the cooldown check inlined in the messageCreate
handler, the streaming loop (text buffering, flushes, tool notices,
tool-error notices) and the surrounding router control flow, including
the catch block that releases the cooldown and classifies the error.
-/

/-- MAX_MESSAGE_LENGTH constant (source line 9). -/
def MAX_MESSAGE_LENGTH : Nat := 2000

/-- DISCORD_MESSAGE_LENGTH_LIMIT constant (source line 10). -/
def DISCORD_MESSAGE_LENGTH_LIMIT : Nat := 1990

/-- COOLDOWN_PERIOD constant (source line 11), in milliseconds. -/
def COOLDOWN_PERIOD : Nat := 10000

/-- The userCooldowns Map from user id to cooldown-end timestamp,
modelled as an association list. -/
abbrev CoolMap := List (List Char × Nat)

/-- Map.get: the value bound to a key, if any. -/
def mapGet (m : CoolMap) (k : List Char) : Option Nat :=
  (m.find? (fun p => p.1 == k)).map (fun p => p.2)

/-- Map.set: replace an existing binding for the key, otherwise append. -/
def mapSet (m : CoolMap) (k : List Char) (v : Nat) : CoolMap :=
  if m.any (fun p => p.1 == k) then
    m.map (fun p => if p.1 == k then (k, v) else p)
  else m ++ [(k, v)]

/-- Map.delete: remove any binding for the key. -/
def mapDelete (m : CoolMap) (k : List Char) : CoolMap :=
  m.filter (fun p => !(p.1 == k))

/-- Body of the setInterval cleanup (source lines 235-242): delete every
entry whose cooldownEnd is strictly less than now. -/
def sweep (m : CoolMap) (now : Nat) : CoolMap :=
  m.filter (fun p => !(decide (p.2 < now)))

/-- Result of the inlined cooldown check. -/
inductive CheckRes where
  | allowed
  | denied (remaining : Nat)
  deriving DecidableEq, Repr

/-- Cooldown check (source lines 89-99): cooldownEnd defaults to 0 when
the map has no entry; deny while now is less than cooldownEnd, reporting
the ceiling of the remaining milliseconds divided by 1000. -/
def cooldownCheck (m : CoolMap) (uid : List Char) (now : Nat) : CheckRes :=
  let cooldownEnd := (mapGet m uid).getD 0
  if now < cooldownEnd then CheckRes.denied ((cooldownEnd - now + 999) / 1000)
  else CheckRes.allowed

/-- Stream events produced by the agent (the part.type switch,
source lines 125-164). -/
inductive StreamEvent where
  | textDelta (s : List Char)
  | toolCall (name : List Char)
  | toolResult (name : List Char)
  | errorEv
  | finish
  deriving DecidableEq, Repr

/-- Observable actions of the handler, tagged by their source call site:
replies, channel sends, cooldown mutations, and the agent invocation. -/
inductive Act where
  | replyTooLong
  | replyWait (secs : Nat)
  | replyPurgeAck
  | purge
  | armCooldown (uid : List Char) (expiry : Nat)
  | invokeAgent (text : List Char)
  | sendFlush (content : List Char)
  | sendCheck (tool : List Char)
  | sendToolErr
  | releaseCooldown (uid : List Char)
  | sendTooLargeNotice
  | sendGenericErr
  deriving DecidableEq, Repr

/-- Substring test, the semantics of toolName.includes (source line 131). -/
def containsSub (pat : List Char) : List Char → Bool
  | [] => pat.isEmpty
  | c :: rest => pat.isPrefixOf (c :: rest) || containsSub pat rest

/-- Removal of the first occurrence of a pattern, the semantics of
toolName.replace with a string pattern and empty replacement
(source line 132). -/
def replaceFirst (pat : List Char) : List Char → List Char
  | [] => []
  | c :: rest =>
      if pat.isPrefixOf (c :: rest) then List.drop pat.length (c :: rest)
      else c :: replaceFirst pat rest

/-- The raw tool-identifier marker checked and stripped at
source lines 131-132. -/
def mmTag : List Char := "mastra_mastra".toList

/-- Mutable state of one streaming loop: messageBuffer, the checksShown
map (only key membership is ever consulted), and the actions sent so
far. -/
structure StreamState where
  buffer : List Char
  checks : List (List Char)
  sends : List Act
  deriving DecidableEq, Repr

/-- Initial streaming state (source lines 119-121). -/
def initStream : StreamState := ⟨[], [], []⟩

/-- The switch on part.type (source lines 125-164). -/
def applyEvent (st : StreamState) (ev : StreamEvent) : StreamState :=
  match ev with
  | StreamEvent.textDelta s => { st with buffer := st.buffer ++ s }
  | StreamEvent.toolCall name =>
      if containsSub mmTag name then
        let toolName := replaceFirst mmTag name
        if toolName ∈ st.checks then st
        else { st with sends := st.sends ++ [Act.sendCheck toolName],
                       checks := st.checks ++ [toolName] }
      else st
  | StreamEvent.toolResult _ => st
  | StreamEvent.errorEv => { st with sends := st.sends ++ [Act.sendToolErr] }
  | StreamEvent.finish => st

/-- The per-iteration flush check (source lines 165-168). -/
def flushCheck (st : StreamState) : StreamState :=
  if DISCORD_MESSAGE_LENGTH_LIMIT < st.buffer.length then
    { st with sends := st.sends ++ [Act.sendFlush st.buffer], buffer := [] }
  else st

/-- One iteration of the for-await loop: handle the event, then run the
flush check. -/
def stepEvent (st : StreamState) (ev : StreamEvent) : StreamState :=
  flushCheck (applyEvent st ev)

/-- The whole for-await loop over a finite event stream. -/
def runStream (evs : List StreamEvent) : StreamState :=
  evs.foldl stepEvent initStream

/-- The flush after the loop (source lines 171-174): send the buffer if
non-empty. -/
def finalFlush (st : StreamState) : StreamState :=
  if 0 < st.buffer.length then
    { st with sends := st.sends ++ [Act.sendFlush st.buffer], buffer := [] }
  else st

/-- All actions of one normally-completing streaming loop. -/
def streamOut (evs : List StreamEvent) : List Act :=
  (finalFlush (runStream evs)).sends

/-- Payload of a text-delta event, none for other events. -/
def fragOf : StreamEvent → Option (List Char)
  | StreamEvent.textDelta s => some s
  | _ => none

/-- The text-fragment payloads of a stream, in emission order. -/
def fragments (evs : List StreamEvent) : List (List Char) :=
  evs.filterMap fragOf

/-- Contents of the buffered (flush) messages among a list of actions. -/
def flushContents (as : List Act) : List (List Char) :=
  as.filterMap (fun a => match a with
    | Act.sendFlush s => some s
    | _ => none)

/-- Concatenation of all flushed message contents. -/
def joinFlushes (as : List Act) : List Char :=
  (flushContents as).flatten

/-- Number of checking notices sent for a given display name. -/
def chkCount (d : List Char) (as : List Act) : Nat :=
  as.count (Act.sendCheck d)

/-- The error.code value of the upstream rate-limit shape
(source line 191). -/
def rateLimitCode : List Char := "rate_limit_exceeded".toList

/-- The innermost error object: data.error, with its optional code. -/
structure ErrInner where
  code : Option (List Char)
  deriving DecidableEq, Repr

/-- The data object hanging off lastError. -/
structure ErrData where
  error : Option ErrInner
  deriving DecidableEq, Repr

/-- The lastError object, with optional statusCode and data. -/
structure LastErr where
  statusCode : Option Nat
  data : Option ErrData
  deriving DecidableEq, Repr

/-- An error caught by the handler: the optional-chaining paths
error?.lastError?.statusCode and error?.lastError?.data?.error?.code are
the only fields consulted. -/
structure AgentError where
  lastError : Option LastErr
  deriving DecidableEq, Repr

/-- The rate-limit test of the catch block (source lines 189-192). -/
def isRateLimit (e : AgentError) : Bool :=
  match e.lastError with
  | some le =>
      (le.statusCode == some 429) &&
      (match le.data with
       | some d =>
           (match d.error with
            | some i => i.code == some rateLimitCode
            | none => false)
       | none => false)
  | none => false

/-- An inbound gateway message: the fields the handler consults. -/
structure MsgIn where
  authorBot : Bool
  channelDM : Bool
  authorId : List Char
  content : List Char
  deriving DecidableEq, Repr

/-- The literal command string (source line 103). -/
def cleardmCmd : List Char := "!cleardm".toList

/-- Result of handling one inbound message: the ordered actions
performed, the final cooldown map, and whether the handler terminated
with an uncaught exception. -/
structure Outcome where
  trace : List Act
  cooldowns : CoolMap
  uncaught : Bool
  deriving DecidableEq, Repr

/-- The messageCreate handler (source lines 76-201). External effects
are oracles: evs and agentErr describe the agent stream (the events
delivered before the stream either ends, agentErr = none, or raises,
agentErr = some e; a failure of the invocation itself is evs = [] with
agentErr = some e), and purgeOk tells whether clearBotDirectMessages
succeeds or rethrows (it rethrows every internal error, source line 44),
its call sitting outside the try block. -/
def handleMessage (cd : CoolMap) (msg : MsgIn) (now : Nat)
    (evs : List StreamEvent) (agentErr : Option AgentError)
    (purgeOk : Bool) : Outcome :=
  if msg.authorBot || !msg.channelDM then ⟨[], cd, false⟩
  else if MAX_MESSAGE_LENGTH < msg.content.length then
    ⟨[Act.replyTooLong], cd, false⟩
  else match cooldownCheck cd msg.authorId now with
    | CheckRes.denied r => ⟨[Act.replyWait r], cd, false⟩
    | CheckRes.allowed =>
      if msg.channelDM && msg.content == cleardmCmd then
        ⟨[Act.replyPurgeAck, Act.purge], cd, !purgeOk⟩
      else
        let cd1 := mapSet cd msg.authorId (now + COOLDOWN_PERIOD)
        let st := runStream evs
        match agentErr with
        | some e =>
            ⟨Act.armCooldown msg.authorId (now + COOLDOWN_PERIOD) ::
               Act.invokeAgent msg.content ::
               (st.sends ++ [Act.releaseCooldown msg.authorId,
                 if isRateLimit e then Act.sendTooLargeNotice
                 else Act.sendGenericErr]),
             mapDelete cd1 msg.authorId, false⟩
        | none =>
            ⟨Act.armCooldown msg.authorId (now + COOLDOWN_PERIOD) ::
               Act.invokeAgent msg.content :: (finalFlush st).sends,
             cd1, false⟩

/-- Concrete user id used by witnesses. -/
def uidW : List Char := "u".toList

/-- A short ordinary inbound message fixture. -/
def msgHello : MsgIn := ⟨false, true, uidW, "hello".toList⟩

/-- An inbound message fixture carrying the clear command. -/
def msgClear : MsgIn := ⟨false, true, uidW, cleardmCmd⟩

/-- An inbound message fixture longer than the inbound limit. -/
def msgLong : MsgIn := ⟨false, true, uidW, List.replicate 2001 'a'⟩

/-- A tool-call fixture whose raw identifier carries the marker. -/
def evW : StreamEvent := StreamEvent.toolCall "mastra_mastraweatherTool".toList

/-- The display name the marker fixture normalizes to. -/
def wName : List Char := "weatherTool".toList

/-- Display name the claim about notice deduplication ascribes to any
tool-invocation event: the normalization applied to every raw
identifier, whether or not it carries the marker. -/
def claimedNormName : StreamEvent → Option (List Char)
  | StreamEvent.toolCall n => some (replaceFirst mmTag n)
  | _ => none

/-- Recognizer for the two call sites of the catch block notices. -/
def isErrNotice (a : Act) : Bool :=
  a == Act.sendTooLargeNotice || a == Act.sendGenericErr

/-- Recognizer for a tool-call event that carries the marker and
normalizes to the given display name. -/
def markedCallTo (d : List Char) : StreamEvent → Bool
  | StreamEvent.toolCall n => containsSub mmTag n && (replaceFirst mmTag n == d)
  | _ => false

theorem joinFlushes_append (as bs : List Act) :
    joinFlushes (as ++ bs) = joinFlushes as ++ joinFlushes bs := by
  simp [joinFlushes, flushContents, List.filterMap_append]

theorem flushCheck_joinFlushes (st : StreamState) :
    joinFlushes (flushCheck st).sends ++ (flushCheck st).buffer =
      joinFlushes st.sends ++ st.buffer := by
  unfold flushCheck
  split
  · simp [joinFlushes_append, joinFlushes, flushContents]
  · rfl

theorem applyEvent_buffer (st : StreamState) (ev : StreamEvent) :
    (applyEvent st ev).buffer = st.buffer ++ (fragOf ev).getD [] := by
  cases ev <;> simp [applyEvent, fragOf]
  split
  · split <;> rfl
  · rfl

theorem applyEvent_flushContents (st : StreamState) (ev : StreamEvent) :
    flushContents (applyEvent st ev).sends = flushContents st.sends := by
  cases ev <;> simp [applyEvent, flushContents, List.filterMap_append]
  split
  · split <;> simp [List.filterMap_append]
  · rfl

theorem applyEvent_joinFlushes (st : StreamState) (ev : StreamEvent) :
    joinFlushes (applyEvent st ev).sends = joinFlushes st.sends := by
  simp [joinFlushes, applyEvent_flushContents]

theorem stepEvent_joinFlushes (st : StreamState) (ev : StreamEvent) :
    joinFlushes (stepEvent st ev).sends ++ (stepEvent st ev).buffer =
      joinFlushes st.sends ++ st.buffer ++ (fragOf ev).getD [] := by
  unfold stepEvent
  rw [flushCheck_joinFlushes, applyEvent_joinFlushes, applyEvent_buffer,
    List.append_assoc]

theorem foldl_joinFlushes (evs : List StreamEvent) :
    ∀ st : StreamState,
      joinFlushes (List.foldl stepEvent st evs).sends ++
          (List.foldl stepEvent st evs).buffer =
        joinFlushes st.sends ++ st.buffer ++ (fragments evs).flatten := by
  induction evs with
  | nil => intro st; simp [fragments]
  | cons ev rest ih =>
      intro st
      simp only [List.foldl_cons]
      rw [ih (stepEvent st ev), stepEvent_joinFlushes]
      cases ev <;> simp [fragments, fragOf, List.append_assoc]

theorem finalFlush_joinFlushes (st : StreamState) :
    joinFlushes (finalFlush st).sends = joinFlushes st.sends ++ st.buffer := by
  unfold finalFlush
  split
  · simp [joinFlushes_append, joinFlushes, flushContents]
  · next h =>
      have hb : st.buffer = [] := by
        have := Nat.eq_zero_of_not_pos h
        simpa [List.length_eq_zero] using this
      simp [hb]

/-- C2: for every finite stream of events, the concatenation of the
contents of the buffered outbound messages (the mid-stream flushes and
the final flush), in the order they were sent, equals the concatenation
of all text-fragment payloads in emission order: no fragment text is
lost, duplicated, or reordered, and flushing only introduces chunk
boundaries. -/
theorem C2_flush_concat_eq_fragments (evs : List StreamEvent) :
    joinFlushes (streamOut evs) = (fragments evs).flatten := by
  unfold streamOut
  rw [finalFlush_joinFlushes]
  have h := foldl_joinFlushes evs initStream
  simpa [runStream, initStream, joinFlushes, flushContents] using h

theorem stepEvent_length_bound {d : Nat} {st : StreamState} {ev : StreamEvent}
    (hev : ∀ s, ev = StreamEvent.textDelta s → s.length ≤ d)
    (hbuf : st.buffer.length ≤ DISCORD_MESSAGE_LENGTH_LIMIT)
    (hfl : ∀ m ∈ flushContents st.sends,
      m.length ≤ DISCORD_MESSAGE_LENGTH_LIMIT + d) :
    (stepEvent st ev).buffer.length ≤ DISCORD_MESSAGE_LENGTH_LIMIT ∧
      ∀ m ∈ flushContents (stepEvent st ev).sends,
        m.length ≤ DISCORD_MESSAGE_LENGTH_LIMIT + d := by
  have hlen : (applyEvent st ev).buffer.length ≤
      DISCORD_MESSAGE_LENGTH_LIMIT + d := by
    rw [applyEvent_buffer]
    cases ev with
    | textDelta s =>
        have hs := hev s rfl
        simp only [fragOf, Option.getD_some, List.length_append]
        omega
    | toolCall n => simp [fragOf]; omega
    | toolResult n => simp [fragOf]; omega
    | errorEv => simp [fragOf]; omega
    | finish => simp [fragOf]; omega
  have hfc := applyEvent_flushContents st ev
  unfold stepEvent flushCheck
  split
  · constructor
    · simp
    · intro m hm
      simp only [flushContents, List.filterMap_append] at hm
      rw [List.mem_append] at hm
      rcases hm with hm | hm
      · exact hfl m (by rw [← hfc]; exact hm)
      · have : m = (applyEvent st ev).buffer := by
          simpa [flushContents] using hm
        rw [this]; exact hlen
  · next h =>
      refine ⟨Nat.le_of_not_lt h, ?_⟩
      intro m hm
      rw [hfc] at hm
      exact hfl m hm

theorem foldl_length_bound (d : Nat) (evs : List StreamEvent) :
    ∀ st : StreamState,
      (∀ s, StreamEvent.textDelta s ∈ evs → s.length ≤ d) →
      st.buffer.length ≤ DISCORD_MESSAGE_LENGTH_LIMIT →
      (∀ m ∈ flushContents st.sends,
        m.length ≤ DISCORD_MESSAGE_LENGTH_LIMIT + d) →
      (List.foldl stepEvent st evs).buffer.length ≤
          DISCORD_MESSAGE_LENGTH_LIMIT ∧
        ∀ m ∈ flushContents (List.foldl stepEvent st evs).sends,
          m.length ≤ DISCORD_MESSAGE_LENGTH_LIMIT + d := by
  induction evs with
  | nil => intro st _ hbuf hfl; exact ⟨hbuf, hfl⟩
  | cons ev rest ih =>
      intro st hpes hbuf hfl
      simp only [List.foldl_cons]
      have hev : ∀ s, ev = StreamEvent.textDelta s → s.length ≤ d := by
        intro s hs
        exact hpes s (hs ▸ List.mem_cons_self ev rest)
      obtain ⟨h1, h2⟩ := stepEvent_length_bound hev hbuf hfl
      exact ih (stepEvent st ev)
        (fun s hs => hpes s (List.mem_cons_of_mem ev hs)) h1 h2

theorem streamOut_single_big (s : List Char)
    (hs : DISCORD_MESSAGE_LENGTH_LIMIT < s.length) :
    flushContents (streamOut [StreamEvent.textDelta s]) = [s] := by
  have h1 : stepEvent initStream (StreamEvent.textDelta s) =
      ⟨[], [], [Act.sendFlush s]⟩ := by
    unfold stepEvent applyEvent flushCheck initStream
    simp [hs]
  have h2 : streamOut [StreamEvent.textDelta s] = [Act.sendFlush s] := by
    unfold streamOut runStream
    simp only [List.foldl_cons, List.foldl_nil, h1]
    unfold finalFlush
    simp
  rw [h2]
  simp [flushContents]

/-- C1 counterexample: the claim that every buffered outbound message
has length at most 2000 regardless of fragment lengths is false: a
single text-fragment of length 2001 is flushed as one outbound message
of length 2001. -/
theorem C1_counterexample :
    ¬ (∀ evs : List StreamEvent,
        ∀ m ∈ flushContents (streamOut evs), m.length ≤ 2000) := by
  intro h
  have hout : flushContents
      (streamOut [StreamEvent.textDelta (List.replicate 2001 'a')]) =
      [List.replicate 2001 'a'] :=
    streamOut_single_big _ (by
      simp only [List.length_replicate, DISCORD_MESSAGE_LENGTH_LIMIT]
      omega)
  have hmem : List.replicate 2001 'a' ∈
      flushContents (streamOut [StreamEvent.textDelta (List.replicate 2001 'a')]) := by
    rw [hout]
    exact List.mem_singleton.mpr rfl
  have hle := h _ _ hmem
  simp only [List.length_replicate] at hle
  omega

/-- C1 amended: every buffered outbound message (each mid-stream flush
and the final flush) has length at most 2000, provided every individual
text-fragment appended to the buffer has length at most 10, the gap
between the 1990 flush threshold and the 2000 hard limit; the code does
not split oversized fragments, so the bound fails without that
hypothesis. -/
theorem C1_flush_length_bounded (evs : List StreamEvent)
    (h : ∀ s, StreamEvent.textDelta s ∈ evs → s.length ≤ 10) :
    ∀ m ∈ flushContents (streamOut evs), m.length ≤ 2000 := by
  obtain ⟨hbuf, hfl⟩ := foldl_length_bound 10 evs initStream h
    (by simp [initStream, DISCORD_MESSAGE_LENGTH_LIMIT])
    (by simp [initStream, flushContents])
  intro m hm
  unfold streamOut finalFlush at hm
  have hconst : DISCORD_MESSAGE_LENGTH_LIMIT + 10 = 2000 := by
    simp [DISCORD_MESSAGE_LENGTH_LIMIT]
  split at hm
  · simp only [flushContents, List.filterMap_append] at hm
    rw [List.mem_append] at hm
    rcases hm with hm | hm
    · exact hconst ▸ hfl m hm
    · have hmb : m = (runStream evs).buffer := by
        simpa [flushContents] using hm
      rw [hmb]
      have hb2 : (runStream evs).buffer.length ≤ DISCORD_MESSAGE_LENGTH_LIMIT := hbuf
      simp only [DISCORD_MESSAGE_LENGTH_LIMIT] at hb2
      omega
  · exact hconst ▸ hfl m hm

/-- C1 witness: a stream of one 2-character fragment, which satisfies
the 10-character fragment bound, yields a final flush of length at most
2000. -/
theorem C1_witness : ("hi".toList : List Char).length ≤ 2000 := by
  refine C1_flush_length_bounded [StreamEvent.textDelta "hi".toList] ?_ _ ?_
  · intro s hs
    rw [List.mem_singleton] at hs
    injection hs with h
    subst h
    decide
  · decide

theorem flushCheck_checks (st : StreamState) :
    (flushCheck st).checks = st.checks := by
  unfold flushCheck
  split <;> rfl

theorem flushCheck_chkCount (d : List Char) (st : StreamState) :
    chkCount d (flushCheck st).sends = chkCount d st.sends := by
  unfold flushCheck
  split
  · simp [chkCount, List.count_append, List.count_cons]
  · rfl

theorem stepEvent_checks_mono (st : StreamState) (ev : StreamEvent) :
    st.checks ⊆ (stepEvent st ev).checks := by
  unfold stepEvent
  rw [flushCheck_checks]
  cases ev with
  | toolCall n =>
      simp only [applyEvent]
      split
      · split
        · exact fun a ha => ha
        · exact fun a ha => List.mem_append_left _ ha
      · exact fun a ha => ha
  | textDelta s => exact fun a ha => ha
  | toolResult n => exact fun a ha => ha
  | errorEv => exact fun a ha => ha
  | finish => exact fun a ha => ha

theorem stepEvent_covers (st : StreamState) (n : List Char)
    (hmark : containsSub mmTag n = true) :
    replaceFirst mmTag n ∈ (stepEvent st (StreamEvent.toolCall n)).checks := by
  unfold stepEvent
  rw [flushCheck_checks]
  simp only [applyEvent, hmark, if_true]
  split
  · assumption
  · exact List.mem_append_right _ (List.mem_singleton.mpr rfl)

theorem stepEvent_chkCount_inv (d : List Char) (st : StreamState)
    (ev : StreamEvent)
    (hinv : chkCount d st.sends = if d ∈ st.checks then 1 else 0) :
    chkCount d (stepEvent st ev).sends =
      if d ∈ (stepEvent st ev).checks then 1 else 0 := by
  unfold stepEvent
  rw [flushCheck_chkCount, flushCheck_checks]
  cases ev with
  | toolCall n =>
      simp only [applyEvent]
      split
      · split
        · exact hinv
        · next hnot =>
            simp only [chkCount, List.count_append] at hinv ⊢
            by_cases hd : d = replaceFirst mmTag n
            · subst hd
              rw [if_neg hnot] at hinv
              simp [List.count_cons, hinv, List.mem_append]
            · have hz : List.count (Act.sendCheck d)
                  [Act.sendCheck (replaceFirst mmTag n)] = 0 :=
                List.count_eq_zero.mpr (by simp [hd])
              have hm2 : (d ∈ st.checks ++ [replaceFirst mmTag n]) ↔
                  d ∈ st.checks := by simp [List.mem_append, hd]
              simp only [hz, Nat.add_zero, hm2]
              exact hinv
      · exact hinv
  | textDelta s => exact hinv
  | toolResult n => exact hinv
  | errorEv =>
      simp only [applyEvent, chkCount, List.count_append] at hinv ⊢
      simp [List.count_cons, hinv]
  | finish => exact hinv

theorem foldl_checks_mono (evs : List StreamEvent) :
    ∀ st : StreamState, st.checks ⊆ (List.foldl stepEvent st evs).checks := by
  induction evs with
  | nil => intro st; exact fun a ha => ha
  | cons ev rest ih =>
      intro st
      simp only [List.foldl_cons]
      exact fun a ha => ih (stepEvent st ev) (stepEvent_checks_mono st ev ha)

theorem foldl_chkCount_inv (d : List Char) (evs : List StreamEvent) :
    ∀ st : StreamState,
      chkCount d st.sends = (if d ∈ st.checks then 1 else 0) →
      chkCount d (List.foldl stepEvent st evs).sends =
        if d ∈ (List.foldl stepEvent st evs).checks then 1 else 0 := by
  induction evs with
  | nil => intro st h; exact h
  | cons ev rest ih =>
      intro st h
      simp only [List.foldl_cons]
      exact ih (stepEvent st ev) (stepEvent_chkCount_inv d st ev h)

theorem foldl_covers (n : List Char) (hmark : containsSub mmTag n = true)
    (evs : List StreamEvent) :
    ∀ st : StreamState, StreamEvent.toolCall n ∈ evs →
      replaceFirst mmTag n ∈ (List.foldl stepEvent st evs).checks := by
  induction evs with
  | nil => intro st h; cases h
  | cons ev rest ih =>
      intro st hmem
      simp only [List.foldl_cons]
      rcases List.mem_cons.mp hmem with heq | hrest
      · subst heq
        exact foldl_checks_mono rest (stepEvent st (StreamEvent.toolCall n))
          (stepEvent_covers st n hmark)
      · exact ih (stepEvent st ev) hrest

theorem finalFlush_chkCount (d : List Char) (st : StreamState) :
    chkCount d (finalFlush st).sends = chkCount d st.sends := by
  unfold finalFlush
  split
  · simp [chkCount, List.count_append, List.count_cons]
  · rfl

/-- C4 counterexample: the claim that two tool-invocation-started events
with equal normalized display names always yield exactly one checking
notice is false: two invocations of a raw identifier that does not
contain the marker yield zero notices. -/
theorem C4_counterexample :
    ¬ (∀ (evs : List StreamEvent) (d : List Char),
        2 ≤ evs.countP (fun ev => claimedNormName ev == some d) →
        chkCount d (streamOut evs) = 1) := by
  intro h
  have h2 := h [StreamEvent.toolCall "weather".toList,
    StreamEvent.toolCall "weather".toList] "weather".toList (by decide)
  revert h2
  decide

/-- C4 amended: within one response, for every raw tool identifier that
contains the marker string mastra_mastra, if the stream contains two (or
more) tool-invocation-started events whose normalized display names are
equal, then exactly one checking notice is sent for that display name
over the whole response; identifiers without the marker never produce a
notice, so the dedup guarantee holds only for marker-carrying
identifiers. -/
theorem C4_dedup (evs : List StreamEvent) (d : List Char)
    (h : 2 ≤ evs.countP (markedCallTo d)) :
    chkCount d (streamOut evs) = 1 := by
  have hpos : 0 < evs.countP (markedCallTo d) := lt_of_lt_of_le (by omega) h
  obtain ⟨ev, hmem, hev⟩ := List.countP_pos_iff.mp hpos
  cases ev with
  | toolCall n =>
      have hmark : containsSub mmTag n = true := by
        have := hev
        simp only [markedCallTo, Bool.and_eq_true] at this
        exact this.1
      have hd : replaceFirst mmTag n = d := by
        have := hev
        simp only [markedCallTo, Bool.and_eq_true, beq_iff_eq] at this
        exact this.2
      have hcover : d ∈ (List.foldl stepEvent initStream evs).checks := by
        rw [← hd]
        exact foldl_covers n hmark evs initStream hmem
      have hinv := foldl_chkCount_inv d evs initStream
        (by simp [initStream, chkCount])
      unfold streamOut
      rw [finalFlush_chkCount]
      unfold runStream
      rw [hinv, if_pos hcover]
  | textDelta s => simp [markedCallTo] at hev
  | toolResult n => simp [markedCallTo] at hev
  | errorEv => simp [markedCallTo] at hev
  | finish => simp [markedCallTo] at hev

/-- C4 witness: two marker-carrying invocations of the same raw tool
identifier produce exactly one checking notice for its display name. -/
theorem C4_witness : chkCount wName (streamOut [evW, evW]) = 1 :=
  C4_dedup [evW, evW] wName (by decide)

theorem stepEvent_flush_big (st : StreamState) (ev : StreamEvent)
    (h : ∀ m ∈ flushContents st.sends,
      DISCORD_MESSAGE_LENGTH_LIMIT < m.length) :
    ∀ m ∈ flushContents (stepEvent st ev).sends,
      DISCORD_MESSAGE_LENGTH_LIMIT < m.length := by
  have hfc := applyEvent_flushContents st ev
  unfold stepEvent flushCheck
  split
  · next hcond =>
      intro m hm
      simp only [flushContents, List.filterMap_append] at hm
      rw [List.mem_append] at hm
      rcases hm with hm | hm
      · exact h m (by rw [← hfc]; exact hm)
      · have hmb : m = (applyEvent st ev).buffer := by
          simpa [flushContents] using hm
        rw [hmb]
        exact hcond
  · intro m hm
    rw [hfc] at hm
    exact h m hm

theorem foldl_flush_big (evs : List StreamEvent) :
    ∀ st : StreamState,
      (∀ m ∈ flushContents st.sends,
        DISCORD_MESSAGE_LENGTH_LIMIT < m.length) →
      ∀ m ∈ flushContents (List.foldl stepEvent st evs).sends,
        DISCORD_MESSAGE_LENGTH_LIMIT < m.length := by
  induction evs with
  | nil => intro st h; exact h
  | cons ev rest ih =>
      intro st h
      simp only [List.foldl_cons]
      exact ih (stepEvent st ev) (stepEvent_flush_big st ev h)

theorem finalFlush_flush_pos (st : StreamState)
    (h : ∀ m ∈ flushContents st.sends, 0 < m.length) :
    ∀ m ∈ flushContents (finalFlush st).sends, 0 < m.length := by
  unfold finalFlush
  split
  · next hpos =>
      intro m hm
      simp only [flushContents, List.filterMap_append] at hm
      rw [List.mem_append] at hm
      rcases hm with hm | hm
      · exact h m hm
      · have hmb : m = st.buffer := by simpa [flushContents] using hm
        rw [hmb]
        exact hpos
  · exact h

theorem foldl_no_text (evs : List StreamEvent) :
    ∀ st : StreamState, (∀ s, StreamEvent.textDelta s ∉ evs) →
      st.buffer = [] →
      flushContents (List.foldl stepEvent st evs).sends =
          flushContents st.sends ∧
        (List.foldl stepEvent st evs).buffer = [] := by
  induction evs with
  | nil => intro st _ hb; exact ⟨rfl, hb⟩
  | cons ev rest ih =>
      intro st hnf hb
      simp only [List.foldl_cons]
      have hfrag : fragOf ev = none := by
        cases ev with
        | textDelta s => exact absurd (List.mem_cons_self _ _) (hnf s)
        | toolCall n => rfl
        | toolResult n => rfl
        | errorEv => rfl
        | finish => rfl
      have hb1 : (applyEvent st ev).buffer = [] := by
        rw [applyEvent_buffer, hfrag, hb]
        rfl
      have hstep_buf : (stepEvent st ev).buffer = [] := by
        unfold stepEvent flushCheck
        simp [hb1, DISCORD_MESSAGE_LENGTH_LIMIT]
      have hstep_sends : flushContents (stepEvent st ev).sends =
          flushContents st.sends := by
        unfold stepEvent flushCheck
        simp [hb1, DISCORD_MESSAGE_LENGTH_LIMIT, applyEvent_flushContents]
      obtain ⟨h1, h2⟩ := ih (stepEvent st ev)
        (fun s hs => hnf s (List.mem_cons_of_mem _ hs)) hstep_buf
      exact ⟨by rw [h1, hstep_sends], h2⟩

/-- C10: the streamer never sends an empty buffered outbound message: a
mid-stream flush occurs only when the buffer length strictly exceeds the
1990 threshold (so every mid-stream flush is longer than 1990), the
end-of-stream flush occurs only when the buffer is non-empty (so every
buffered outbound message is non-empty), and a stream containing no
text-fragments produces zero buffered outbound messages. -/
theorem C10_no_empty_flush (evs : List StreamEvent) :
    (∀ m ∈ flushContents (runStream evs).sends,
        DISCORD_MESSAGE_LENGTH_LIMIT < m.length) ∧
      (∀ m ∈ flushContents (streamOut evs), 0 < m.length) ∧
      (fragments evs = [] → flushContents (streamOut evs) = []) := by
  have hbig : ∀ m ∈ flushContents (runStream evs).sends,
      DISCORD_MESSAGE_LENGTH_LIMIT < m.length :=
    foldl_flush_big evs initStream (by simp [initStream, flushContents])
  refine ⟨hbig, ?_, ?_⟩
  · unfold streamOut
    exact finalFlush_flush_pos _
      (fun m hm => lt_of_le_of_lt (Nat.zero_le _) (hbig m hm))
  · intro hfr
    have hnf : ∀ s, StreamEvent.textDelta s ∉ evs := by
      intro s hs
      have hsmem : s ∈ fragments evs :=
        List.mem_filterMap.mpr ⟨_, hs, rfl⟩
      rw [hfr] at hsmem
      cases hsmem
    obtain ⟨h1, h2⟩ := foldl_no_text evs initStream hnf rfl
    have hb : (runStream evs).buffer = [] := h2
    unfold streamOut finalFlush
    rw [hb]
    simp only [List.length_nil, Nat.lt_irrefl, if_false]
    simpa [initStream, flushContents] using h1

/-- C10 witness: a stream consisting of a single tool-error event, which
has no text-fragments, produces zero buffered outbound messages. -/
theorem C10_witness : flushContents (streamOut [StreamEvent.errorEv]) = [] :=
  (C10_no_empty_flush [StreamEvent.errorEv]).2.2 rfl

/-- C5: the cooldown check allows a message iff no entry exists for the
user or the entry's expiry has passed (expiry at most now); when it
denies, the reported wait is the ceiling of the remaining milliseconds
divided by 1000, computed as (expiry - now + 999) / 1000, and is
strictly positive. -/
theorem C5_cooldown_check (m : CoolMap) (uid : List Char) (now : Nat) :
    (cooldownCheck m uid now = CheckRes.allowed ↔
      (mapGet m uid = none ∨ ∃ e, mapGet m uid = some e ∧ e ≤ now)) ∧
    (∀ r, cooldownCheck m uid now = CheckRes.denied r →
      ∃ e, mapGet m uid = some e ∧ now < e ∧
        r = (e - now + 999) / 1000 ∧ 0 < r) := by
  cases hg : mapGet m uid with
  | none =>
      constructor
      · simp [cooldownCheck, hg]
      · intro r hr
        simp [cooldownCheck, hg] at hr
  | some e =>
      by_cases hlt : now < e
      · constructor
        · constructor
          · intro hall
            exfalso
            simp [cooldownCheck, hg, hlt] at hall
          · intro hor
            exfalso
            rcases hor with hnone | ⟨e', he', hle⟩
            · cases hnone
            · injection he' with he2
              omega
        · intro r hr
          simp only [cooldownCheck, hg, Option.getD_some, if_pos hlt] at hr
          injection hr with hreq
          refine ⟨e, rfl, hlt, hreq.symm, ?_⟩
          rw [← hreq]
          exact (Nat.le_div_iff_mul_le (by omega)).mpr (by omega)
      · constructor
        · constructor
          · intro _
            exact Or.inr ⟨e, rfl, Nat.le_of_not_lt hlt⟩
          · intro _
            simp [cooldownCheck, hg, hlt]
        · intro r hr
          simp [cooldownCheck, hg, hlt] at hr

/-- C5 witness: an entry whose expiry 5 lies in the past of now = 3000
is allowed. -/
theorem C5_witness : cooldownCheck [(uidW, 5)] uidW 3000 = CheckRes.allowed :=
  (C5_cooldown_check [(uidW, 5)] uidW 3000).1.mpr
    (Or.inr ⟨5, rfl, by omega⟩)

/-- C8 counterexample: the claim that one sweep run removes every entry
whose expiry is at most now is false: the source deletes only entries
with cooldownEnd strictly less than now, so an entry whose expiry equals
now survives the sweep. -/
theorem C8_counterexample :
    ¬ (∀ (m : CoolMap) (now : Nat) (uid : List Char) (e : Nat),
        (uid, e) ∈ m → e ≤ now → (uid, e) ∉ sweep m now) := by
  intro h
  exact h [(uidW, 5)] 5 uidW 5 (by decide) (by decide) (by decide)

/-- C8 amended: one run of the periodic sweep removes exactly the
entries whose expiry is strictly less than now and leaves every entry
whose expiry is at least now (including entries whose expiry equals now)
unchanged: an entry belongs to the swept map iff it belongs to the
original map and its expiry is at least now. -/
theorem C8_sweep (m : CoolMap) (now : Nat) (uid : List Char) (e : Nat) :
    (uid, e) ∈ sweep m now ↔ ((uid, e) ∈ m ∧ now ≤ e) := by
  simp [sweep, List.mem_filter, Nat.not_lt]

theorem mapGet_mapDelete (m : CoolMap) (k : List Char) :
    mapGet (mapDelete m k) k = none := by
  have hfind : (mapDelete m k).find? (fun p => p.1 == k) = none := by
    rw [List.find?_eq_none]
    intro p hp
    have hmem := List.mem_filter.mp hp
    simpa using hmem.2
  simp [mapGet, hfind]

theorem stepEvent_no_err (st : StreamState) (ev : StreamEvent)
    (h : ∀ a ∈ st.sends, isErrNotice a = false) :
    ∀ a ∈ (stepEvent st ev).sends, isErrNotice a = false := by
  have happ : ∀ a ∈ (applyEvent st ev).sends, isErrNotice a = false := by
    cases ev with
    | toolCall n =>
        simp only [applyEvent]
        split
        · split
          · exact h
          · intro a ha
            rcases List.mem_append.mp ha with ha | ha
            · exact h a ha
            · rw [List.mem_singleton.mp ha]
              rfl
        · exact h
    | textDelta s => exact h
    | toolResult n => exact h
    | errorEv =>
        intro a ha
        rcases List.mem_append.mp ha with ha | ha
        · exact h a ha
        · rw [List.mem_singleton.mp ha]
          rfl
    | finish => exact h
  unfold stepEvent flushCheck
  split
  · intro a ha
    rcases List.mem_append.mp ha with ha | ha
    · exact happ a ha
    · rw [List.mem_singleton.mp ha]
      rfl
  · exact happ

theorem foldl_no_err (evs : List StreamEvent) :
    ∀ st : StreamState, (∀ a ∈ st.sends, isErrNotice a = false) →
      ∀ a ∈ (List.foldl stepEvent st evs).sends, isErrNotice a = false := by
  induction evs with
  | nil => intro st h; exact h
  | cons ev rest ih =>
      intro st h
      simp only [List.foldl_cons]
      exact ih (stepEvent st ev) (stepEvent_no_err st ev h)

/-- C9: an inbound direct message from a non-bot author whose text is
strictly longer than 2000 characters produces exactly one
length-exceeded notice and nothing else: no agent invocation, no
cooldown change, no other outbound message, and no uncaught
exception. -/
theorem C9_too_long (cd : CoolMap) (msg : MsgIn) (now : Nat)
    (evs : List StreamEvent) (agentErr : Option AgentError) (purgeOk : Bool)
    (hbot : msg.authorBot = false) (hdm : msg.channelDM = true)
    (hlen : MAX_MESSAGE_LENGTH < msg.content.length) :
    handleMessage cd msg now evs agentErr purgeOk =
      ⟨[Act.replyTooLong], cd, false⟩ := by
  unfold handleMessage
  rw [hbot, hdm]
  simp [hlen]

/-- C9 witness: a 2001-character inbound message is answered by exactly
the length-exceeded reply with the cooldown map untouched. -/
theorem C9_witness :
    handleMessage [] msgLong 0 [] none true =
      ⟨[Act.replyTooLong], [], false⟩ :=
  C9_too_long [] msgLong 0 [] none true rfl rfl
    (by rw [show msgLong.content = List.replicate 2001 'a' from rfl,
          List.length_replicate]
        decide)

/-- C3 counterexample: the claim that no inbound message's handling
terminates with an uncaught exception is false: a !cleardm message whose
History Purge fails makes the handler terminate uncaught, because the
!cleardm dispatch sits outside the try block and clearBotDirectMessages
rethrows its errors. -/
theorem C3_counterexample :
    ¬ (∀ (cd : CoolMap) (msg : MsgIn) (now : Nat) (evs : List StreamEvent)
        (agentErr : Option AgentError) (purgeOk : Bool),
        (handleMessage cd msg now evs agentErr purgeOk).uncaught = false) := by
  intro h
  exact absurd (h [] msgClear 0 [] none false) (by decide)

/-- C3 amended: every error raised on the streaming path (agent
invocation or stream consumption) is caught inside the handler and never
propagates, but a failure during History Purge on the !cleardm path does
propagate out of the handler: handling terminates with an uncaught
exception exactly when the message is an accepted !cleardm command and
the purge fails. -/
theorem C3_uncaught_char (cd : CoolMap) (msg : MsgIn) (now : Nat)
    (evs : List StreamEvent) (agentErr : Option AgentError) (purgeOk : Bool) :
    (handleMessage cd msg now evs agentErr purgeOk).uncaught = true ↔
      (msg.authorBot = false ∧ msg.channelDM = true ∧
        msg.content.length ≤ MAX_MESSAGE_LENGTH ∧
        cooldownCheck cd msg.authorId now = CheckRes.allowed ∧
        msg.content = cleardmCmd ∧ purgeOk = false) := by
  unfold handleMessage
  cases hbot : msg.authorBot with
  | true => simp [hbot]
  | false =>
      cases hdm : msg.channelDM with
      | false => simp [hdm]
      | true =>
          simp only [hbot, hdm, Bool.not_true, Bool.or_false, Bool.false_or,
            Bool.true_and]
          by_cases hlen : MAX_MESSAGE_LENGTH < msg.content.length
          · simp [hlen, Nat.not_le.mpr hlen]
          · simp only [if_neg hlen]
            cases hchk : cooldownCheck cd msg.authorId now with
            | denied r => simp [hchk]
            | allowed =>
                simp only [hchk]
                by_cases hcmd : msg.content = cleardmCmd
                · have hc8 : cleardmCmd.length ≤ MAX_MESSAGE_LENGTH := by
                    decide
                  simp [hcmd, hc8]
                · simp only [beq_iff_eq, hcmd]
                  cases agentErr <;> simp [hcmd]

/-- C6: when the streaming path raises, the handler removes the user's
cooldown entry and then sends exactly one notice, which is the specific
request-too-large notice iff the error carries lastError.statusCode 429
with data.error.code rate_limit_exceeded, and the generic error notice
otherwise; no other error notice appears anywhere in the trace. -/
theorem C6_error_path (cd : CoolMap) (msg : MsgIn) (now : Nat)
    (evs : List StreamEvent) (e : AgentError) (purgeOk : Bool)
    (hbot : msg.authorBot = false) (hdm : msg.channelDM = true)
    (hlen : msg.content.length ≤ MAX_MESSAGE_LENGTH)
    (hchk : cooldownCheck cd msg.authorId now = CheckRes.allowed)
    (hcmd : msg.content ≠ cleardmCmd) :
    mapGet (handleMessage cd msg now evs (some e) purgeOk).cooldowns
        msg.authorId = none ∧
      ∃ pre, (handleMessage cd msg now evs (some e) purgeOk).trace =
          pre ++ [Act.releaseCooldown msg.authorId,
            if isRateLimit e then Act.sendTooLargeNotice
            else Act.sendGenericErr] ∧
        ∀ a ∈ pre, isErrNotice a = false := by
  have hred : handleMessage cd msg now evs (some e) purgeOk =
      ⟨Act.armCooldown msg.authorId (now + COOLDOWN_PERIOD) ::
         Act.invokeAgent msg.content ::
         ((runStream evs).sends ++ [Act.releaseCooldown msg.authorId,
           if isRateLimit e then Act.sendTooLargeNotice
           else Act.sendGenericErr]),
       mapDelete (mapSet cd msg.authorId (now + COOLDOWN_PERIOD))
         msg.authorId, false⟩ := by
    unfold handleMessage
    rw [hbot, hdm]
    simp [Nat.not_lt.mpr hlen, hchk, hcmd, runStream]
  rw [hred]
  refine ⟨mapGet_mapDelete _ _,
    Act.armCooldown msg.authorId (now + COOLDOWN_PERIOD) ::
      Act.invokeAgent msg.content :: (runStream evs).sends, by simp, ?_⟩
  intro a ha
  rcases List.mem_cons.mp ha with h1 | ha
  · rw [h1]; rfl
  rcases List.mem_cons.mp ha with h2 | ha
  · rw [h2]; rfl
  · exact foldl_no_err evs initStream (by simp [initStream]) a ha

/-- C6 witness: an error with no lastError field, raised at invocation
time, leaves no cooldown entry for the user. -/
theorem C6_witness :
    mapGet (handleMessage [] msgHello 0 [] (some ⟨none⟩) true).cooldowns
      uidW = none :=
  (C6_error_path [] msgHello 0 [] ⟨none⟩ true rfl rfl (by decide)
    (by decide) (by decide)).1

/-- C7: for every accepted inbound message that is not the !cleardm
command, the handler records the cooldown with expiry now plus 10000
milliseconds as its first action, before the agent invocation; and for a
message whose text equals !cleardm, no cooldown entry is ever created on
any path and the cooldown map is returned unchanged. -/
theorem C7_arming :
    (∀ (cd : CoolMap) (msg : MsgIn) (now : Nat) (evs : List StreamEvent)
        (agentErr : Option AgentError) (purgeOk : Bool),
      msg.authorBot = false → msg.channelDM = true →
      msg.content.length ≤ MAX_MESSAGE_LENGTH →
      cooldownCheck cd msg.authorId now = CheckRes.allowed →
      msg.content ≠ cleardmCmd →
      ∃ rest, (handleMessage cd msg now evs agentErr purgeOk).trace =
        Act.armCooldown msg.authorId (now + COOLDOWN_PERIOD) ::
          Act.invokeAgent msg.content :: rest) ∧
    (∀ (cd : CoolMap) (msg : MsgIn) (now : Nat) (evs : List StreamEvent)
        (agentErr : Option AgentError) (purgeOk : Bool),
      msg.content = cleardmCmd →
      (∀ uid expiry, Act.armCooldown uid expiry ∉
          (handleMessage cd msg now evs agentErr purgeOk).trace) ∧
        (handleMessage cd msg now evs agentErr purgeOk).cooldowns = cd) := by
  constructor
  · intro cd msg now evs agentErr purgeOk hbot hdm hlen hchk hcmd
    unfold handleMessage
    rw [hbot, hdm]
    simp only [Bool.not_true, Bool.or_false, Bool.false_or, if_neg
      (Nat.not_lt.mpr hlen), hchk]
    have hbeq : (msg.content == cleardmCmd) = false := by
      simp [beq_iff_eq, hcmd]
    simp only [hdm, hbeq, Bool.true_and, Bool.and_false, if_false]
    cases agentErr with
    | some e => exact ⟨_, rfl⟩
    | none => exact ⟨_, rfl⟩
  · intro cd msg now evs agentErr purgeOk hcmd
    unfold handleMessage
    cases hbot : msg.authorBot with
    | true => simp [hbot]
    | false =>
        cases hdm : msg.channelDM with
        | false => simp [hdm]
        | true =>
            simp only [hbot, hdm, Bool.not_true, Bool.or_false,
              Bool.false_or]
            have hc8 : ¬ (MAX_MESSAGE_LENGTH < msg.content.length) := by
              rw [hcmd]
              decide
            simp only [if_neg hc8]
            cases hchk : cooldownCheck cd msg.authorId now with
            | denied r => simp
            | allowed =>
                simp only [hcmd]
                simp [cleardmCmd]

/-- C7 witness: an accepted ordinary message's first recorded action is
arming the cooldown with expiry now plus 10000, and a !cleardm message
never records a cooldown arming. -/
theorem C7_witness :
    (handleMessage [] msgHello 0 [] none true).trace.head? =
        some (Act.armCooldown uidW (0 + COOLDOWN_PERIOD)) ∧
      Act.armCooldown uidW 42 ∉
        (handleMessage [] msgClear 0 [] none true).trace := by
  obtain ⟨rest, hr⟩ := C7_arming.1 [] msgHello 0 [] none true rfl rfl
    (by decide) (by decide) (by decide)
  refine ⟨?_, (C7_arming.2 [] msgClear 0 [] none true rfl).1 uidW 42⟩
  rw [hr]
  rfl
